import Mathlib

/-!
Verification of the witch file-watcher core: the stateful differencing
engine (`check` / `checkBool` and the `scanAndCheck` glue from
watcher/watcher.go), the recursive target scanner and ignore filtering
(`scan`, `scanWatches`, `isIgnored` from the watcher package), and the
glob matcher (whose implementation is modelled from the specification,
only its test table being present in the sources).

Go maps `map[string]os.FileInfo` / `map[string]*Target` are embedded as
association lists with (for the relevant theorems) a no-duplicate-keys
hypothesis; the `nil` map of an unseeded watcher is `Option.none`, a
non-nil empty map is `some []`.  Filesystem access is an oracle record of
pure functions; the unbounded Go recursion over directories is given an
explicit fuel argument that only decreases when descending into a
directory.
-/

namespace Witch

/-- Embeds the `os.FileInfo` data the watcher consults: the modification
timestamp (compared with `ModTime().Equal`) and the directory flag. -/
structure FileInfo where
  modTime : Int
  isDir : Bool
deriving DecidableEq

/-- Embeds `map[string]os.FileInfo` as an association list. -/
abbrev FileMap := List (String × FileInfo)

/-- Go map read `m[k]` (comma-ok form). -/
def lookupMap : FileMap → String → Option FileInfo
  | [], _ => none
  | (k', v) :: rest, k => if k' = k then some v else lookupMap rest k

/-- Go `delete(m, k)`. -/
def eraseMap : FileMap → String → FileMap
  | [], _ => []
  | (k', v) :: rest, k => if k' = k then eraseMap rest k else (k', v) :: eraseMap rest k

/-- The three event kind constants of watcher/watcher.go. -/
inductive EventType where
  | added
  | changed
  | removed
deriving DecidableEq

/-- A detected file event; the path identifies the map entry the event
was produced from (the `Target.Path` carried by the event in the
watcher package). -/
structure Event where
  type : EventType
  path : String
  info : FileInfo
deriving DecidableEq

/-- The Go map has no duplicate keys. -/
def NodupKeys (m : FileMap) : Prop := (m.map Prod.fst).Nodup

instance (m : FileMap) : Decidable (NodupKeys m) := by
  unfold NodupKeys; infer_instance

/-- The first loop of watcher.go `check`: walk `latest`, emitting Added
for unknown paths and Changed on modification-time difference, deleting
each visited path from the working copy of the baseline. -/
def checkLoop (work : FileMap) : FileMap → List Event × FileMap
  | [] => ([], work)
  | (path, info) :: rest =>
    match lookupMap work path with
    | none =>
      let r := checkLoop (eraseMap work path) rest
      (⟨EventType.added, path, info⟩ :: r.1, r.2)
    | some prev =>
      if prev.modTime ≠ info.modTime then
        let r := checkLoop (eraseMap work path) rest
        (⟨EventType.changed, path, info⟩ :: r.1, r.2)
      else
        checkLoop (eraseMap work path) rest

/-- watcher.go `check` (lines 138-174): `none` baseline means the Go
`w.prev == nil` unseeded state; the returned pair is (events, new
retained baseline). -/
def check (prev : Option FileMap) (latest : FileMap) : List Event × Option FileMap :=
  match prev with
  | none => ([], some latest)
  | some p =>
    let r := checkLoop p latest
    (r.1 ++ r.2.map (fun e => ⟨EventType.removed, e.1, e.2⟩), some latest)

/-- The loop of watcher.go `checkBool`, returning true on the first
added or changed path. -/
def checkBoolLoop (work : FileMap) : FileMap → Bool
  | [] => decide (work.length > 0)
  | (path, info) :: rest =>
    match lookupMap work path with
    | none => true
    | some prev =>
      if prev.modTime ≠ info.modTime then true
      else checkBoolLoop (eraseMap work path) rest

/-- watcher.go `checkBool` (lines 176-205): boolean short-circuiting
variant; in every exit path the retained baseline becomes `latest`. -/
def checkBool (prev : Option FileMap) (latest : FileMap) : Bool × Option FileMap :=
  match prev with
  | none => (false, some latest)
  | some p => (checkBoolLoop p latest, some latest)

/-- Go `error` values (the wrapped message). -/
abbrev GoError := String

/-- watcher.go `scanAndCheck` (lines 207-220).  The resolution phase
(`getWatches` followed by `scan`) performs filesystem I/O; its outcome
for the cycle is passed in as an `Except` value, exactly as consumed by
the error checks of the Go function. -/
def scanAndCheck (prev : Option FileMap) (scanned : Except GoError FileMap) :
    Except GoError (List Event) × Option FileMap :=
  match scanned with
  | Except.error e => (Except.error e, prev)
  | Except.ok infos =>
    let r := check prev infos
    (Except.ok r.1, r.2)

/-- watcher.go `scanAndCheckBool` (lines 222-235). -/
def scanAndCheckBool (prev : Option FileMap) (scanned : Except GoError FileMap) :
    Except GoError Bool × Option FileMap :=
  match scanned with
  | Except.error e => (Except.error e, prev)
  | Except.ok infos =>
    let r := checkBool prev infos
    (Except.ok r.1, r.2)

/-- Erase a list of keys in order (the cumulative effect of the
`delete(w.prev, path)` calls of one pass of the loop). -/
def eraseAll (m : FileMap) : List String → FileMap
  | [] => m
  | k :: ks => eraseAll (eraseMap m k) ks

/-- A watch target of the watcher package: display path, absolute path,
and the lazily populated stat metadata. -/
structure Target where
  path : String
  fullpath : String
  info : Option FileInfo
deriving DecidableEq

/-- The filesystem oracle consulted by the scanners: `filepath.Abs`,
`os.Stat` (where `none` is a stat error, covering a vanished path) and
`ioutil.ReadDir` (returning the child entry names). -/
structure FileSystem where
  abs : String → String
  stat : String → Option FileInfo
  readDir : String → Except GoError (List String)

/-- `filepath.Join` of a parent path and a child name, for the paths the
scanners build (no cleaning corner cases arise: names are plain). -/
def joinPath (a b : String) : String :=
  if a = "" then b else a ++ "/" ++ b

/-- One level of the `scan` of the watcher package that tolerates
vanished paths (the doublestar-based version): for each target, stat
its absolute path, silently skipping the target on a stat failure;
record files; read directories and scan their children through
`descend`, where a directory read failure aborts the whole scan. -/
def scanStep (fs : FileSystem)
    (descend : List Target → Except GoError (List (String × Target))) :
    List Target → Except GoError (List (String × Target))
  | [] => Except.ok []
  | t :: rest =>
    match fs.stat t.fullpath with
    | none => scanStep fs descend rest
    | some info =>
      if info.isDir = false then
        match scanStep fs descend rest with
        | Except.error e => Except.error e
        | Except.ok rs => Except.ok ((t.fullpath, { t with info := some info }) :: rs)
      else
        match fs.readDir t.fullpath with
        | Except.error e => Except.error e
        | Except.ok names =>
          match descend (names.map fun n =>
              ⟨joinPath t.path n, joinPath t.fullpath n, none⟩) with
          | Except.error e => Except.error e
          | Except.ok children =>
            match scanStep fs descend rest with
            | Except.error e => Except.error e
            | Except.ok rs => Except.ok (children ++ rs)

/-- The `scan` of the watcher package that tolerates vanished paths
(the doublestar-based version), tying the recursive descent of
`scanStep` to an explicit depth bound (in Go the recursion depth is
bounded only by the real directory tree). -/
def scan (fs : FileSystem) : Nat → List Target → Except GoError (List (String × Target))
  | 0 => scanStep fs fun _ => Except.error "max recursion depth exceeded"
  | fuel + 1 => scanStep fs (scan fs fuel)

/-- Split a character list on a separator character (the path
separator), mirroring strings.Split: a list of n separators yields
n+1 pieces. -/
def splitOnSep (sep : Char) : List Char → List (List Char)
  | [] => [[]]
  | c :: rest =>
    let r := splitOnSep sep rest
    if c == sep then [] :: r
    else
      match r with
      | [] => [[c]]
      | piece :: more => (c :: piece) :: more

/-- Go strings.Split on the path separator: the segment list of a
path. -/
def splitPath (path : String) : List String :=
  (splitOnSep '/' path.data).map fun cs => String.mk cs

/-- The accumulation loop of the watcher package's `isIgnored`: extend
the accumulated prefix by one path segment at a time and test it
against the ignore set. -/
def isIgnoredAux (ignores : List String) (accum : String) : List String → Bool
  | [] => false
  | s :: rest =>
    let accum' := if accum ≠ "" then accum ++ "/" ++ s else s
    if ignores.contains accum' then true else isIgnoredAux ignores accum' rest

/-- The watcher package's `isIgnored`: a path is ignored when any of
its segment prefixes (itself included) is in the ignore set. -/
def isIgnored (path : String) (ignores : List String) : Bool :=
  isIgnoredAux ignores "" (splitPath path)

/-- The segment prefixes `isIgnored` tests, in order: for a/b/c these
are a, a/b and a/b/c (the path itself). -/
def segPrefixesAux (accum : String) : List String → List String
  | [] => []
  | s :: rest =>
    let accum' := if accum ≠ "" then accum ++ "/" ++ s else s
    accum' :: segPrefixesAux accum' rest

/-- A path's ancestor directories and the path itself, as tested by
`isIgnored`. -/
def segPrefixes (path : String) : List String :=
  segPrefixesAux "" (splitPath path)

/-- One level of the watcher package's `scanWatches`: skip any candidate
path whose `isIgnored` check fires; stat the absolute path, silently
skipping a vanished candidate; record files (keyed by their display
path); read directories and scan their children through `descend`, each
child path being re-checked against the ignore set. -/
def scanWatchesStep (fs : FileSystem)
    (descend : List String → List String → Except GoError (List (String × Target))) :
    List String → List String → Except GoError (List (String × Target))
  | [], _ => Except.ok []
  | path :: rest, ignores =>
    if isIgnored path ignores then scanWatchesStep fs descend rest ignores
    else
      let fullpath := fs.abs path
      match fs.stat fullpath with
      | none => scanWatchesStep fs descend rest ignores
      | some info =>
        if info.isDir = false then
          match scanWatchesStep fs descend rest ignores with
          | Except.error e => Except.error e
          | Except.ok rs => Except.ok ((path, ⟨path, fullpath, some info⟩) :: rs)
        else
          match fs.readDir fullpath with
          | Except.error e => Except.error e
          | Except.ok names =>
            match descend (names.map fun n => joinPath path n) ignores with
            | Except.error e => Except.error e
            | Except.ok children =>
              match scanWatchesStep fs descend rest ignores with
              | Except.error e => Except.error e
              | Except.ok rs => Except.ok (children ++ rs)

/-- The watcher package's `scanWatches`, tying the recursive descent of
`scanWatchesStep` to an explicit depth bound (in Go the recursion depth
is bounded only by the real directory tree). -/
def scanWatches (fs : FileSystem) :
    Nat → List String → List String → Except GoError (List (String × Target))
  | 0 => scanWatchesStep fs fun _ _ => Except.error "max recursion depth exceeded"
  | fuel + 1 => scanWatchesStep fs (scanWatches fs fuel)

/-- Modelled from the spec: one member of a character class of the glob
matcher (package glob, whose implementation file is absent from the
sources; only its test table survives): a literal character or an
inclusive range. -/
inductive ClassItem where
  | lit (c : Char)
  | range (lo hi : Char)
deriving DecidableEq

/-- Modelled from the spec: one compiled element of a glob segment. -/
inductive Tok where
  | lit (c : Char)
  | anyChar
  | star
  | cls (neg : Bool) (items : List ClassItem)
deriving DecidableEq

/-- Modelled from the spec: does one character satisfy a (possibly
negated) character class. -/
def classMatch (neg : Bool) (items : List ClassItem) (d : Char) : Bool :=
  let m := items.any fun it =>
    match it with
    | ClassItem.lit c => d == c
    | ClassItem.range lo hi => decide (lo ≤ d) && decide (d ≤ hi)
  if neg then !m else m

/-- Modelled from the spec: the state of the segment compiler, either in
ordinary position or inside a character class accumulating its items. -/
inductive ParseMode where
  | normal
  | inClass (neg : Bool) (acc : List ClassItem)
deriving DecidableEq

/-- Modelled from the spec: compile one glob segment (no separator) to
tokens.  `?` matches one character, `*` zero or more, a bracketed
character class supports ranges, leading-caret negation and backslash
escapes, and `\\` escapes the next character.  A malformed construct
(unterminated class, bare dash in a class, trailing backslash) makes
the whole parse fail, which the matcher turns into matching nothing,
silently. -/
def parseSeg : ParseMode → List Char → Option (List Tok)
  | ParseMode.normal, [] => some []
  | ParseMode.normal, '\\' :: [] => none
  | ParseMode.normal, '\\' :: c :: rest =>
    (parseSeg ParseMode.normal rest).map fun toks => Tok.lit c :: toks
  | ParseMode.normal, '*' :: rest =>
    (parseSeg ParseMode.normal rest).map fun toks => Tok.star :: toks
  | ParseMode.normal, '?' :: rest =>
    (parseSeg ParseMode.normal rest).map fun toks => Tok.anyChar :: toks
  | ParseMode.normal, '[' :: '^' :: rest => parseSeg (ParseMode.inClass true []) rest
  | ParseMode.normal, '[' :: rest => parseSeg (ParseMode.inClass false []) rest
  | ParseMode.normal, c :: rest =>
    (parseSeg ParseMode.normal rest).map fun toks => Tok.lit c :: toks
  | ParseMode.inClass _ _, [] => none
  | ParseMode.inClass neg acc, ']' :: rest =>
    (parseSeg ParseMode.normal rest).map fun toks => Tok.cls neg acc.reverse :: toks
  | ParseMode.inClass _ _, '-' :: _ => none
  | ParseMode.inClass _ _, '\\' :: [] => none
  | ParseMode.inClass _ _, '\\' :: _ :: '-' :: ']' :: _ => none
  | ParseMode.inClass _ _, '\\' :: _ :: '-' :: '-' :: _ => none
  | ParseMode.inClass _ _, '\\' :: _ :: '-' :: '\\' :: [] => none
  | ParseMode.inClass neg acc, '\\' :: c :: '-' :: '\\' :: d :: rest =>
    parseSeg (ParseMode.inClass neg (ClassItem.range c d :: acc)) rest
  | ParseMode.inClass _ _, '\\' :: _ :: '-' :: [] => none
  | ParseMode.inClass neg acc, '\\' :: c :: '-' :: d :: rest =>
    parseSeg (ParseMode.inClass neg (ClassItem.range c d :: acc)) rest
  | ParseMode.inClass neg acc, '\\' :: c :: rest =>
    parseSeg (ParseMode.inClass neg (ClassItem.lit c :: acc)) rest
  | ParseMode.inClass _ _, _ :: '-' :: ']' :: _ => none
  | ParseMode.inClass _ _, _ :: '-' :: '-' :: _ => none
  | ParseMode.inClass _ _, _ :: '-' :: '\\' :: [] => none
  | ParseMode.inClass neg acc, c :: '-' :: '\\' :: d :: rest =>
    parseSeg (ParseMode.inClass neg (ClassItem.range c d :: acc)) rest
  | ParseMode.inClass _ _, _ :: '-' :: [] => none
  | ParseMode.inClass neg acc, c :: '-' :: d :: rest =>
    parseSeg (ParseMode.inClass neg (ClassItem.range c d :: acc)) rest
  | ParseMode.inClass neg acc, c :: rest =>
    parseSeg (ParseMode.inClass neg (ClassItem.lit c :: acc)) rest

/-- Modelled from the spec: compile one glob segment, starting outside
any character class. -/
def parseSegment (p : List Char) : Option (List Tok) :=
  parseSeg ParseMode.normal p

/-- All suffixes of a list, longest first (the candidate remainders a
zero-or-more wildcard can leave behind). -/
def suffixes {A : Type} : List A → List (List A)
  | [] => [[]]
  | c :: rest => (c :: rest) :: suffixes rest

/-- Modelled from the spec: match compiled segment tokens against the
characters of one path segment; `star` matches zero or more characters
within the segment, expressed as matching the rest of the tokens
against some suffix. -/
def matchToks : List Tok → List Char → Bool
  | [], s => s.isEmpty
  | Tok.star :: rest, s => (suffixes s).any fun s' => matchToks rest s'
  | Tok.anyChar :: rest, s =>
    match s with
    | [] => false
    | _ :: s' => matchToks rest s'
  | Tok.lit c :: rest, s =>
    match s with
    | [] => false
    | d :: s' => c == d && matchToks rest s'
  | Tok.cls neg items :: rest, s =>
    match s with
    | [] => false
    | d :: s' => classMatch neg items d && matchToks rest s'

/-- Modelled from the spec: match one glob segment against one path
segment; a segment that fails to compile matches nothing, silently. -/
def matchSegment (p s : List Char) : Bool :=
  match parseSegment p with
  | none => false
  | some toks => matchToks toks s

/-- Modelled from the spec: match a segment-split glob pattern against
a segment-split path.  A pattern segment that is exactly a double star
matches whole path segments: zero or more when more pattern follows,
one or more when it is the final segment. -/
def matchSegments : List (List Char) → List (List Char) → Bool
  | [], segs => segs.isEmpty
  | p :: ps, segs =>
    if p == ['*', '*'] then
      if ps.isEmpty then !segs.isEmpty
      else (suffixes segs).any fun segs' => matchSegments ps segs'
    else
      match segs with
      | [] => false
      | seg :: rest => matchSegment p seg && matchSegments ps rest

/-- Modelled from the spec: locate the first unescaped opening brace,
returning the characters before it and those after it. -/
def findBrace : List Char → Option (List Char × List Char)
  | [] => none
  | '\\' :: [] => none
  | '\\' :: c :: rest => (findBrace rest).map fun r => ('\\' :: c :: r.1, r.2)
  | '{' :: rest => some ([], rest)
  | c :: rest => (findBrace rest).map fun r => (c :: r.1, r.2)

/-- Modelled from the spec: scan an alternation body up to the matching
closing brace (respecting nesting and escapes), returning the body and
the suffix after the closing brace; failure means the braces are
unbalanced. -/
def scanBody : List Char → Nat → Option (List Char × List Char)
  | [], _ => none
  | '\\' :: [], _ => none
  | '\\' :: c :: rest, d => (scanBody rest d).map fun r => ('\\' :: c :: r.1, r.2)
  | '{' :: rest, d => (scanBody rest (d + 1)).map fun r => ('{' :: r.1, r.2)
  | '}' :: rest, 0 => some ([], rest)
  | '}' :: rest, d + 1 => (scanBody rest d).map fun r => ('}' :: r.1, r.2)
  | c :: rest, d => (scanBody rest d).map fun r => (c :: r.1, r.2)

/-- Modelled from the spec: split an alternation body at its top-level
commas. -/
def splitAlts : List Char → Nat → List Char → List (List Char)
  | [], _, acc => [acc.reverse]
  | '\\' :: [], _, acc => [('\\' :: acc).reverse]
  | '\\' :: c :: rest, d, acc => splitAlts rest d (c :: '\\' :: acc)
  | '{' :: rest, d, acc => splitAlts rest (d + 1) ('{' :: acc)
  | '}' :: rest, d + 1, acc => splitAlts rest d ('}' :: acc)
  | '}' :: rest, 0, acc => splitAlts rest 0 ('}' :: acc)
  | ',' :: rest, 0, acc => acc.reverse :: splitAlts rest 0 []
  | c :: rest, d, acc => splitAlts rest d (c :: acc)

/-- Modelled from the spec: brace alternation.  The pattern is rewritten
once per alternative of its first brace group and the rewrites are
expanded recursively; unbalanced braces fail the expansion, which the
matcher turns into matching nothing.  Each rewrite is strictly shorter
than its source, so fuel one larger than the pattern length never runs
out. -/
def expandBraces : Nat → List Char → Option (List (List Char))
  | 0, _ => none
  | fuel + 1, p =>
    match findBrace p with
    | none => some [p]
    | some (pre, afterBrace) =>
      match scanBody afterBrace 0 with
      | none => none
      | some (body, suffix) =>
        let alts := splitAlts body 0 []
        ((alts.mapM fun alt => expandBraces fuel (pre ++ alt ++ suffix))).map List.flatten

/-- Modelled from the spec: the whole-pattern glob match over
separator-split segments, with brace alternation unioned over
alternatives.  Malformed constructs match nothing and raise no
error. -/
def globMatch (pattern s : String) : Bool :=
  match expandBraces (pattern.data.length + 1) pattern.data with
  | none => false
  | some alts =>
    alts.any fun alt => matchSegments (splitOnSep '/' alt) (splitOnSep '/' s.data)

/-- A glob segment is malformed exactly when it fails to compile:
an unterminated or ill-formed character class, or a trailing
backslash. -/
def segMalformed (seg : List Char) : Bool :=
  (parseSegment seg).isNone

/-- A brace alternative is malformed when one of its segments is. -/
def altMalformed (alt : List Char) : Bool :=
  (splitOnSep '/' alt).any segMalformed

/-- A whole glob pattern is malformed when its braces are unbalanced or
every brace alternative is malformed. -/
def patternMalformed (pattern : String) : Bool :=
  match expandBraces (pattern.data.length + 1) pattern.data with
  | none => true
  | some alts => alts.all altMalformed

/-- Modelled from the spec: the glob expansion of one pattern over the
paths of a filesystem.  The matcher is total: expansion never yields an
error, malformed patterns simply match nothing. -/
def Glob (paths : List String) (pattern : String) : Except GoError (List String) :=
  Except.ok (paths.filter fun s => globMatch pattern s)

/-- The watcher package's `expandArgs` loop: expand each pattern,
propagating any expansion error, and union the results. -/
def expandArgs (paths : List String) : List String → Except GoError (List String)
  | [] => Except.ok []
  | arg :: rest =>
    match Glob paths arg with
    | Except.error e => Except.error e
    | Except.ok ms =>
      match expandArgs paths rest with
      | Except.error e => Except.error e
      | Except.ok more => Except.ok (ms ++ more)

/-- Filesystem where every stat fails, for exercising the vanished-path
branch of `scan`. -/
def fsGone : FileSystem :=
  ⟨id, fun _ => none, fun _ => Except.ok []⟩

/-- A small filesystem: directory a holding an ignored subdirectory a/b
and a file a/c. -/
def fsDemo : FileSystem where
  abs := id
  stat := fun p =>
    if p = "a" then some ⟨0, true⟩
    else if p = "a/b" then some ⟨0, true⟩
    else if p = "a/c" then some ⟨1, false⟩
    else none
  readDir := fun p => if p = "a" then Except.ok ["b", "c"] else Except.ok []

/-- Concrete baseline for exercising the diff engine. -/
def demoPrev : FileMap :=
  [("a", ⟨1, false⟩), ("b", ⟨2, false⟩)]

/-- Concrete latest scan for exercising the diff engine: a changed, b
removed, c added. -/
def demoLatest : FileMap :=
  [("a", ⟨3, false⟩), ("c", ⟨4, false⟩)]

/- ############################################################ -/
/- Lemmas -/
/- ############################################################ -/

theorem lookupMap_eraseMap (m : FileMap) (k x : String) :
    lookupMap (eraseMap m k) x = if k = x then none else lookupMap m x := by
  induction m with
  | nil => simp [eraseMap, lookupMap]
  | cons e rest ih =>
    obtain ⟨k', v⟩ := e
    simp only [eraseMap]
    by_cases h1 : k' = k
    · subst h1
      rw [if_pos rfl, ih]
      by_cases h2 : k' = x
      · subst h2
        simp [lookupMap]
      · simp [lookupMap, h2]
    · rw [if_neg h1]
      by_cases h2 : k' = x
      · subst h2
        have hkx : ¬k = k' := fun hh => h1 hh.symm
        simp [lookupMap, hkx]
      · simp [lookupMap, h2, ih]

theorem checkLoop_snd_eq (latest : FileMap) :
    ∀ work : FileMap, (checkLoop work latest).2 = eraseAll work (latest.map Prod.fst) := by
  induction latest with
  | nil => intro work; simp [checkLoop, eraseAll]
  | cons e rest ih =>
    intro work
    obtain ⟨path, info⟩ := e
    simp only [checkLoop, List.map_cons, eraseAll]
    cases h : lookupMap work path with
    | none => simp [ih]
    | some prev =>
      by_cases hm : prev.modTime ≠ info.modTime
      · simp [hm, ih]
      · simp [hm, ih]

theorem lookupMap_eq_none_of_not_mem (m : FileMap) (x : String)
    (h : x ∉ m.map Prod.fst) : lookupMap m x = none := by
  induction m with
  | nil => simp [lookupMap]
  | cons e rest ih =>
    obtain ⟨k, v⟩ := e
    simp only [List.map_cons, List.mem_cons, not_or] at h
    have hk : ¬k = x := fun hh => h.1 hh.symm
    simp [lookupMap, hk, ih h.2]

theorem mem_keys_of_lookupMap_some (m : FileMap) (x : String) (v : FileInfo)
    (h : lookupMap m x = some v) : x ∈ m.map Prod.fst := by
  induction m with
  | nil => simp [lookupMap] at h
  | cons e rest ih =>
    obtain ⟨k, w⟩ := e
    by_cases hk : k = x
    · subst hk; simp
    · simp only [lookupMap, if_neg hk] at h
      simp only [List.map_cons, List.mem_cons]
      exact Or.inr (ih h)

theorem filter_key_of_lookupMap_none (m : FileMap) (x : String)
    (h : lookupMap m x = none) : m.filter (fun e => e.1 == x) = [] := by
  induction m with
  | nil => simp
  | cons e rest ih =>
    obtain ⟨k, v⟩ := e
    by_cases hk : k = x
    · simp [lookupMap, hk] at h
    · simp only [lookupMap, if_neg hk] at h
      simp [List.filter_cons, hk, ih h]

theorem filter_key_of_lookupMap_some (m : FileMap) (x : String) (v : FileInfo)
    (hm : NodupKeys m) (h : lookupMap m x = some v) :
    m.filter (fun e => e.1 == x) = [(x, v)] := by
  induction m with
  | nil => simp [lookupMap] at h
  | cons e rest ih =>
    obtain ⟨k, w⟩ := e
    simp only [NodupKeys, List.map_cons, List.nodup_cons] at hm
    by_cases hk : k = x
    · subst hk
      simp only [lookupMap, if_pos rfl] at h
      injection h with hwv
      subst hwv
      have hrest : lookupMap rest k = none :=
        lookupMap_eq_none_of_not_mem rest k hm.1
      simp [List.filter_cons, filter_key_of_lookupMap_none rest k hrest]
    · simp only [lookupMap, if_neg hk] at h
      simp [List.filter_cons, hk, ih hm.2 h]

theorem filter_key_eraseMap (m : FileMap) (k x : String) :
    (eraseMap m k).filter (fun e => e.1 == x) =
      if k = x then [] else m.filter (fun e => e.1 == x) := by
  induction m with
  | nil => simp [eraseMap]
  | cons e rest ih =>
    obtain ⟨k', v⟩ := e
    simp only [eraseMap]
    by_cases h1 : k' = k
    · subst h1
      rw [if_pos rfl, ih]
      by_cases h2 : k' = x
      · simp [h2]
      · simp [List.filter_cons, h2]
    · rw [if_neg h1]
      by_cases h2 : k' = x
      · subst h2
        have hkx : ¬k = k' := fun hh => h1 hh.symm
        simp [List.filter_cons, hkx, ih]
      · simp [List.filter_cons, h2, ih]

theorem filter_key_eraseAll (ks : List String) :
    ∀ (m : FileMap) (x : String),
      (eraseAll m ks).filter (fun e => e.1 == x) =
        if x ∈ ks then [] else m.filter (fun e => e.1 == x) := by
  induction ks with
  | nil => intro m x; simp [eraseAll]
  | cons k ks ih =>
    intro m x
    simp only [eraseAll]
    rw [ih]
    by_cases hk : k = x
    · subst hk; simp [filter_key_eraseMap]
    · by_cases hks : x ∈ ks
      · simp [hks]
      · have hxk : ¬x = k := fun hh => hk hh.symm
        have hx : x ∉ k :: ks := by simp [List.mem_cons, hxk, hks]
        simp [hks, hx, filter_key_eraseMap, hk]

theorem not_mem_keys_of_lookupMap_none (m : FileMap) (x : String)
    (h : lookupMap m x = none) : x ∉ m.map Prod.fst := by
  induction m with
  | nil => simp
  | cons e rest ih =>
    obtain ⟨k, v⟩ := e
    by_cases hk : k = x
    · simp [lookupMap, hk] at h
    · simp only [lookupMap, if_neg hk] at h
      simp only [List.map_cons, List.mem_cons, not_or]
      exact ⟨fun hh => hk hh.symm, ih h⟩

theorem checkLoop_fst_filter (latest : FileMap) (hl : NodupKeys latest) :
    ∀ (work : FileMap) (x : String),
      ((checkLoop work latest).1).filter (fun e => e.path == x) =
        match lookupMap latest x, lookupMap work x with
        | some info, none => [⟨EventType.added, x, info⟩]
        | some info, some prev =>
          if prev.modTime = info.modTime then [] else [⟨EventType.changed, x, info⟩]
        | none, _ => [] := by
  induction latest with
  | nil =>
    intro work x
    simp [checkLoop, lookupMap]
  | cons e rest ih =>
    obtain ⟨k, i⟩ := e
    have hl' := hl
    simp only [NodupKeys, List.map_cons, List.nodup_cons] at hl'
    have hk : k ∉ rest.map Prod.fst := hl'.1
    have hrest : NodupKeys rest := hl'.2
    have hrk : lookupMap rest k = none := lookupMap_eq_none_of_not_mem rest k hk
    intro work x
    simp only [checkLoop]
    cases hw : lookupMap work k with
    | none =>
      by_cases hx : k = x
      · subst hx
        simp [List.filter_cons, ih hrest, hrk, lookupMap, hw]
      · have hxk : ¬x = k := fun hh => hx hh.symm
        simp [List.filter_cons, hxk, ih hrest, lookupMap_eraseMap, hx, lookupMap]
    | some prev =>
      by_cases hm : prev.modTime = i.modTime
      · by_cases hx : k = x
        · subst hx
          simp [hm, ih hrest, hrk, lookupMap, hw]
        · have hxk : ¬x = k := fun hh => hx hh.symm
          simp [hm, hxk, ih hrest, lookupMap_eraseMap, hx, lookupMap]
      · by_cases hx : k = x
        · subst hx
          simp [List.filter_cons, hm, ih hrest, hrk, lookupMap, hw]
        · have hxk : ¬x = k := fun hh => hx hh.symm
          simp [List.filter_cons, hm, hxk, ih hrest, lookupMap_eraseMap, hx, lookupMap]

theorem filter_path_map_removed (l : List (String × FileInfo)) (x : String) :
    (l.map fun e => (⟨EventType.removed, e.1, e.2⟩ : Event)).filter (fun e => e.path == x) =
      (l.filter fun e => e.1 == x).map fun e => (⟨EventType.removed, e.1, e.2⟩ : Event) := by
  induction l with
  | nil => simp
  | cons e rest ih =>
    by_cases he : e.1 = x
    · simp [List.filter_cons, he, ih]
    · simp [List.filter_cons, he, ih]

theorem checkBoolLoop_iff (latest : FileMap) :
    ∀ work : FileMap,
      checkBoolLoop work latest = true ↔
        ((checkLoop work latest).1 ≠ [] ∨ (checkLoop work latest).2 ≠ []) := by
  induction latest with
  | nil =>
    intro work
    simp [checkBoolLoop, checkLoop, List.length_pos]
  | cons e rest ih =>
    intro work
    obtain ⟨path, info⟩ := e
    simp only [checkBoolLoop, checkLoop]
    cases hw : lookupMap work path with
    | none => simp
    | some prev =>
      by_cases hm : prev.modTime ≠ info.modTime
      · simp [hm]
      · simp [hm, ih]

theorem checkLoop_nil_work (latest : FileMap) :
    checkLoop [] latest = (latest.map fun e => ⟨EventType.added, e.1, e.2⟩, []) := by
  induction latest with
  | nil => simp [checkLoop]
  | cons e rest ih =>
    obtain ⟨k, i⟩ := e
    simp [checkLoop, lookupMap, eraseMap, ih]

theorem scanWatchesStep_not_ignored (fs : FileSystem)
    (descend : List String → List String → Except GoError (List (String × Target)))
    (hd : ∀ (paths ignores : List String) (l : List (String × Target)) (k : String)
      (t : Target), descend paths ignores = Except.ok l → (k, t) ∈ l →
        isIgnored k ignores = false) :
    ∀ (paths ignores : List String) (l : List (String × Target)) (k : String) (t : Target),
      scanWatchesStep fs descend paths ignores = Except.ok l → (k, t) ∈ l →
        isIgnored k ignores = false := by
  intro paths
  induction paths with
  | nil =>
    intro ignores l k t hres hmem
    simp only [scanWatchesStep] at hres
    injection hres with hres
    subst hres
    exact absurd hmem (List.not_mem_nil _)
  | cons path rest ih =>
    intro ignores l k t hres hmem
    simp only [scanWatchesStep] at hres
    split at hres
    next hig => exact ih ignores l k t hres hmem
    next hig =>
      split at hres
      next hst => exact ih ignores l k t hres hmem
      next info hst =>
        split at hres
        next hdir =>
          split at hres
          next e hrest => cases hres
          next rs hrest =>
            injection hres with hres
            subst hres
            rcases List.mem_cons.mp hmem with hhd | htl
            · have hk : k = path := congrArg Prod.fst hhd
              subst hk
              exact Bool.eq_false_iff.mpr hig
            · exact ih ignores rs k t hrest htl
        next hdir =>
          split at hres
          next e hrd => cases hres
          next names hrd =>
            split at hres
            next e hch => cases hres
            next children hch =>
              split at hres
              next e hrest => cases hres
              next rs hrest =>
                injection hres with hres
                subst hres
                rcases List.mem_append.mp hmem with hc | hr
                · exact hd _ ignores children k t hch hc
                · exact ih ignores rs k t hrest hr

theorem scanWatches_not_ignored (fs : FileSystem) :
    ∀ (fuel : Nat) (paths ignores : List String) (l : List (String × Target))
      (k : String) (t : Target),
      scanWatches fs fuel paths ignores = Except.ok l → (k, t) ∈ l →
        isIgnored k ignores = false := by
  intro fuel
  induction fuel with
  | zero =>
    exact scanWatchesStep_not_ignored fs _
      fun paths ignores l k t hres => absurd hres (by simp)
  | succ fuel ihf =>
    exact scanWatchesStep_not_ignored fs _ ihf

theorem isIgnoredAux_eq_any (ignores : List String) :
    ∀ (segs : List String) (accum : String),
      isIgnoredAux ignores accum segs =
        (segPrefixesAux accum segs).any fun q => ignores.contains q := by
  intro segs
  induction segs with
  | nil => intro accum; simp [isIgnoredAux, segPrefixesAux]
  | cons seg rest ih =>
    intro accum
    simp only [isIgnoredAux, segPrefixesAux, List.any_cons]
    cases hc : ignores.contains (if accum ≠ "" then accum ++ "/" ++ seg else seg) with
    | true => simp [hc]
    | false => simp [hc, ih]

theorem isIgnored_of_ancestor (k a : String) (ignores : List String)
    (ha : a ∈ segPrefixes k) (hc : ignores.contains a = true) :
    isIgnored k ignores = true := by
  unfold isIgnored
  rw [isIgnoredAux_eq_any]
  exact List.any_eq_true.mpr ⟨a, ha, hc⟩

/- ############################################################ -/
/- Claim theorems -/
/- ############################################################ -/

theorem matchSegments_of_malformed :
    ∀ (psegs segs : List (List Char)), psegs.any segMalformed = true →
      matchSegments psegs segs = false := by
  intro psegs
  induction psegs with
  | nil => intro segs h; simp at h
  | cons p ps ih =>
    intro segs h
    simp only [List.any_cons, Bool.or_eq_true] at h
    simp only [matchSegments]
    by_cases hpp : p == ['*', '*']
    · have hpeq : p = ['*', '*'] := eq_of_beq hpp
      have hp : segMalformed p = false := by rw [hpeq]; decide
      have hps : ps.any segMalformed = true := by
        rcases h with h | h
        · rw [hp] at h; cases h
        · exact h
      rw [if_pos hpp]
      by_cases hpse : ps.isEmpty
      · have hnil : ps = [] := List.isEmpty_iff.mp hpse
        rw [hnil] at hps
        simp at hps
      · rw [if_neg hpse]
        rw [List.any_eq_false]
        intro segs' _
        rw [ih segs' hps]
        simp
    · rw [if_neg hpp]
      rcases h with h | h
      · cases segs with
        | nil => rfl
        | cons seg rest =>
          have hms : matchSegment p seg = false := by
            unfold matchSegment
            simp only [segMalformed, Option.isNone_iff_eq_none] at h
            rw [h]
          simp [hms]
      · cases segs with
        | nil => rfl
        | cons seg rest => simp [ih rest h]

/-- C4: a candidate path (however a watch pattern produced it) that is
itself in the resolved ignore set, or has any ancestor directory in the
resolved ignore set, never appears in the resolved target set:
`segPrefixes k` lists the path and every ancestor prefix.  In
particular a watch pattern matching deeper inside an ignored directory
cannot reintroduce the path. -/
theorem ignored_paths_never_in_targets (fs : FileSystem) (fuel : Nat)
    (paths ignores : List String) (l : List (String × Target)) (k a : String)
    (ha : a ∈ segPrefixes k) (hc : ignores.contains a = true)
    (hres : scanWatches fs fuel paths ignores = Except.ok l) (t : Target) :
    (k, t) ∉ l := by
  intro hmem
  have hfalse := scanWatches_not_ignored fs fuel paths ignores l k t hres hmem
  rw [isIgnored_of_ancestor k a ignores ha hc] at hfalse
  cases hfalse

/-- Witness for C4: scanning directory a with a/b ignored resolves only
the file a/c, and a/b/x is excluded through its ignored ancestor a/b. -/
theorem ignored_paths_never_in_targets_witness :
    ("a/b/x", Target.mk "a/b/x" "a/b/x" none) ∉
      [("a/c", Target.mk "a/c" "a/c" (some ⟨1, false⟩))] :=
  ignored_paths_never_in_targets fsDemo 3 ["a"] ["a/b"]
    [("a/c", Target.mk "a/c" "a/c" (some ⟨1, false⟩))] "a/b/x" "a/b"
    (by decide) (by decide) rfl (Target.mk "a/b/x" "a/b/x" none)

/-- C1: with an existing baseline, the events of one diff call exactly
partition the affected paths: a path of latest absent from the baseline
produces exactly one Added event; a path of both whose modification
timestamps differ produces exactly one Changed event; a baseline path
absent from latest produces exactly one Removed event; any other path
produces no event, so no path occurs in two events. -/
theorem check_events_partition (p latest : FileMap)
    (hp : NodupKeys p) (hl : NodupKeys latest) (x : String) :
    ((check (some p) latest).1).filter (fun e => e.path == x) =
      match lookupMap latest x, lookupMap p x with
      | some info, none => [⟨EventType.added, x, info⟩]
      | some info, some prev =>
        if prev.modTime = info.modTime then [] else [⟨EventType.changed, x, info⟩]
      | none, some prev => [⟨EventType.removed, x, prev⟩]
      | none, none => [] := by
  simp only [check]
  rw [List.filter_append, checkLoop_fst_filter latest hl p x, filter_path_map_removed,
    checkLoop_snd_eq, filter_key_eraseAll]
  cases h3 : lookupMap latest x with
  | some info =>
    have hmem : x ∈ latest.map Prod.fst := mem_keys_of_lookupMap_some latest x info h3
    rw [if_pos hmem]
    cases h4 : lookupMap p x with
    | none => simp
    | some prev => by_cases hmt : prev.modTime = info.modTime <;> simp [hmt]
  | none =>
    have hnmem : x ∉ latest.map Prod.fst := not_mem_keys_of_lookupMap_none latest x h3
    rw [if_neg hnmem]
    cases h4 : lookupMap p x with
    | none => rw [filter_key_of_lookupMap_none p x h4]; simp
    | some prev => rw [filter_key_of_lookupMap_some p x prev hp h4]; simp

/-- Witness for C1: concrete baseline a@1,b@2 against latest a@3,c@4,
at the removed path b. -/
theorem check_events_partition_witness :
    NodupKeys demoPrev ∧ NodupKeys demoLatest ∧
      ((check (some demoPrev) demoLatest).1).filter (fun e => e.path == "b") =
        match lookupMap demoLatest "b", lookupMap demoPrev "b" with
        | some info, none => [⟨EventType.added, "b", info⟩]
        | some info, some prev =>
          if prev.modTime = info.modTime then [] else [⟨EventType.changed, "b", info⟩]
        | none, some prev => [⟨EventType.removed, "b", prev⟩]
        | none, none => [] :=
  ⟨by decide, by decide,
    check_events_partition demoPrev demoLatest (by decide) (by decide) "b"⟩

/-- C2: with a retained baseline, the boolean variant returns true
exactly when the event variant on the same pair returns a non-empty
event sequence. -/
theorem scanForChange_iff_events (p latest : FileMap) :
    (checkBool (some p) latest).1 = true ↔ (check (some p) latest).1 ≠ [] := by
  simp only [checkBool, check]
  rw [checkBoolLoop_iff]
  constructor
  · rintro (h | h) hc
    · exact h (List.append_eq_nil.mp hc).1
    · exact h (List.map_eq_nil_iff.mp (List.append_eq_nil.mp hc).2)
  · intro h
    by_cases h1 : (checkLoop p latest).1 = []
    · refine Or.inr fun h2 => h ?_
      rw [h1, h2]
      simp
    · exact Or.inl h1

/-- C6: a target whose stat fails during resolution is silently
omitted: the scan of a target list beginning with a vanished target is
exactly the scan of the remaining targets, so the disappearance changes
no result and is never surfaced as a scan error. -/
theorem vanished_target_silently_dropped (fs : FileSystem) (fuel : Nat)
    (t : Target) (rest : List Target) (h : fs.stat t.fullpath = none) :
    scan fs fuel (t :: rest) = scan fs fuel rest := by
  cases fuel with
  | zero => simp [scan, scanStep, h]
  | succ fuel => simp [scan, scanStep, h]

/-- Witness for C6: a filesystem where every stat fails. -/
theorem vanished_target_silently_dropped_witness :
    fsGone.stat "gone" = none ∧
      scan fsGone 3 [⟨"gone", "gone", none⟩] = scan fsGone 3 [] :=
  ⟨rfl, vanished_target_silently_dropped fsGone 3 ⟨"gone", "gone", none⟩ [] rfl⟩

/-- C9: the concrete glob table from the matcher's test suite: a star
does not cross the separator, a double-star segment spans whole
segments, brace alternation unions its alternatives, and a negated
character class excludes exactly its range. -/
theorem glob_match_table :
    globMatch "a*" "axbxcxdxe" = true ∧ globMatch "a*" "a/b" = false ∧
      globMatch "a*/b" "abc/b" = true ∧ globMatch "a*/b" "a/c/b" = false ∧
      globMatch "**/c" "c" = true ∧ globMatch "**/c" "b/c" = true ∧
      globMatch "**/c" "a/b/c" = true ∧ globMatch "**/c" "a/b" = false ∧
      globMatch "ab\x7bc,d\x7d" "abc" = true ∧ globMatch "ab\x7bc,d\x7d" "abd" = true ∧
      globMatch "ab\x7bc,d\x7d" "abe" = false ∧
      globMatch "[^e-g]" "e" = false ∧ globMatch "[^e-g]" "f" = false ∧
      globMatch "[^e-g]" "g" = false := by
  decide

/-- C8: a malformed glob pattern (unterminated class, trailing
backslash, unbalanced brace — anything the pattern compiler rejects)
raises no error: it matches no path at all, and an expansion that
includes it behaves exactly as without it; the named malformed shapes
are indeed rejected. -/
theorem malformed_patterns_match_nothing :
    (∀ (p s : String), patternMalformed p = true → globMatch p s = false) ∧
      (∀ (fsPaths : List String) (p : String) (rest : List String),
        patternMalformed p = true →
          expandArgs fsPaths (p :: rest) = expandArgs fsPaths rest) ∧
      patternMalformed "[" = true ∧ patternMalformed "a[" = true ∧
      patternMalformed "\\" = true ∧ patternMalformed "ab\x7bc,d" = true ∧
      patternMalformed "ab\x7bc,d\x7d[" = true := by
  have hmain : ∀ (p s : String), patternMalformed p = true → globMatch p s = false := by
    intro p s hm
    unfold patternMalformed at hm
    unfold globMatch
    split
    · rfl
    · next alts hex =>
      rw [hex] at hm
      rw [List.any_eq_false]
      intro alt halt
      have hA : altMalformed alt = true := (List.all_eq_true.mp hm) alt halt
      unfold altMalformed at hA
      rw [matchSegments_of_malformed _ _ hA]
      simp
  refine ⟨hmain, ?_, by decide, by decide, by decide, by decide, by decide⟩
  intro fsPaths p rest hm
  simp only [expandArgs, Glob]
  have hnil : fsPaths.filter (fun s => globMatch p s) = [] := by
    rw [List.filter_eq_nil_iff]
    intro a _
    rw [hmain p a hm]
    simp
  rw [hnil]
  cases expandArgs fsPaths rest <;> simp

/-- Witness for C8: the unterminated class a[ is malformed and matches
nothing. -/
theorem malformed_patterns_match_nothing_witness :
    patternMalformed "a[" = true ∧ globMatch "a[" "ab" = false :=
  ⟨by decide, malformed_patterns_match_nothing.1 "a[" "ab" (by decide)⟩

/-- C10: a first scan resolving zero targets still seeds the baseline
(the retained state becomes the empty mapping, not the absent one), so
the whole of a second scan is reported as Added events rather than
being absorbed as first-cycle seeding. -/
theorem empty_first_scan_seeds_empty_baseline :
    scanAndCheck none (Except.ok ([] : FileMap)) = (Except.ok [], some []) ∧
      ∀ latest : FileMap,
        (check (some ([] : FileMap)) latest).1 =
          latest.map fun e => ⟨EventType.added, e.1, e.2⟩ := by
  refine ⟨rfl, fun latest => ?_⟩
  simp [check, checkLoop_nil_work]

/-- C3: for every resolved target set, the first diff call after
construction (no baseline yet, the Go nil map) returns an empty event
sequence regardless of how many targets the set contains, and stores
that set as the new baseline. -/
theorem unseeded_check_returns_nothing_and_seeds (latest : FileMap) :
    check none latest = ([], some latest) := rfl

/-- C5: after every diff call made with an existing baseline, the
retained baseline is exactly the latest resolved mapping, whether or
not events fired, for both the event variant and the boolean
variant. -/
theorem baseline_always_replaced (p latest : FileMap) :
    (check (some p) latest).2 = some latest ∧
      (checkBool (some p) latest).2 = some latest :=
  ⟨rfl, rfl⟩

/-- C7: when the scan phase of a cycle fails, both scanAndCheck and
scanAndCheckBool return that failure to the caller and leave the
retained baseline exactly as it was. -/
theorem failed_scan_preserves_baseline (prev : Option FileMap) (e : GoError) :
    scanAndCheck prev (Except.error e) = (Except.error e, prev) ∧
      scanAndCheckBool prev (Except.error e) = (Except.error e, prev) :=
  ⟨rfl, rfl⟩

end Witch
